import Mathlib

/-!
# Verification of the `signalbot` per-chat lock (`src/signalbot/plugins/plugin.py`)

This file gives a shallow embedding of the concurrency core of the repository:
the classes `ChatThreadcount` (the spec's DrainCounter), `ChatLock` (the
spec's ExclusiveGate) and the worker harness `Plugin._thread_start` (the
spec's WorkerLifecycle).

## Modelling choices, traced to the source

* `GateState` holds the shared mutable state of one `ChatLock` and its owned
  `ChatThreadcount`:
  - `count`       ↦ `ChatThreadcount._count` (the spec's ActiveCount),
  - `candidates`  ↦ `ChatThreadcount._blocking_candidates_count`
                    (the spec's CandidateCount),
  - `lockHeld`    ↦ whether `ChatLock._lock` (the spec's ExclusiveFlag) is held,
  - `entryHeld`   ↦ whether `ChatLock._entry_lock` (the spec's AdmissionGate)
                    is held.
  Python integers are unbounded, so the counters are `Int`.

* Every Python method of the core is compiled to a list of atomic
  instructions (`Instr`).  All reads/writes of `_count` and
  `_blocking_candidates_count` happen under `ChatThreadcount._condition`'s
  mutex in the source, so each counter update or counter test is one atomic
  instruction; the condition mutex itself therefore needs no separate
  modelling.  Condition-variable waiting (`Condition.wait` inside a
  `while` loop re-checking the guard) is modelled by enabledness: the
  waiting instruction can fire exactly in states where the loop guard is
  false, which is faithful for all safety properties.

* A thread's only local variable is `unblocked` in `ChatLock.__enter__`
  (the result of the non-blocking `self._lock.acquire(False)`); it is part
  of the per-thread state.

* Python `with` semantics: `with x: body` runs `x.__enter__()`, then `body`,
  then `x.__exit__(...)`; `__exit__` runs whether `body` completes or
  raises (the exception propagates afterwards).  If `__enter__` itself
  raises, `body` and `__exit__` are skipped.  The flat instruction lists
  below encode exactly this: the only raising instruction, `raiseBusy`
  (the `raise Exception('Exclusive lock could not be acquired.')` at the
  end of `ChatLock.__enter__`), terminates the thread's remaining program,
  which models the skipped body and `__exit__` of `with chat_lock:`.
-/

/-- The shared state of one `ChatLock` together with its `ChatThreadcount`.
`count` is `_count`, `candidates` is `_blocking_candidates_count`,
`lockHeld` is the held/free state of `ChatLock._lock`, and `entryHeld` is
the held/free state of `ChatLock._entry_lock`. -/
structure GateState where
  count : Int
  candidates : Int
  lockHeld : Bool
  entryHeld : Bool
  deriving DecidableEq

/-- The kind of condition-variable wake-up a counter update performs:
`WakeKind.one` is `Condition.notify()`, `WakeKind.all` is
`Condition.notify_all()`. -/
inductive WakeKind where
  | one
  | all
  deriving DecidableEq

/-- Atomic instructions of the core, one per source-level atomic action.
- `acqEntry` / `relEntry`: blocking acquire / release of `_entry_lock`.
- `acqLock` / `relLock`: blocking acquire / release of `_lock`.
- `tryLock`: the non-blocking `self._lock.acquire(False)`; its result is
  stored in the thread-local `unblocked`.
- `waitDrain`: `if unblocked: self._threadcount.wait_until_only_blocking_candidates()`
  from `ChatLock.__enter__`; a no-op when `unblocked` is false, otherwise
  it can fire exactly when the loop guard
  `self._count > self._blocking_candidates_count` is false.
- `raiseBusy`: `if not unblocked: raise Exception(...)`; a no-op when
  `unblocked` is true, otherwise it raises and the thread's remaining
  program is abandoned.
- `incCount`: `self._count += 1` (under `_condition`).
- `decCountNotifyOne`: `self._count -= 1; self._condition.notify()`.
- `incCandNotifyAll`: `self._blocking_candidates_count += 1; self._condition.notify_all()`.
- `decCandNotifyAll`: `self._blocking_candidates_count -= 1; self._condition.notify_all()`.
- `work b`: the plugin's unit of work (`target(*args)` or the body of
  `with chat_lock:`); `b` records whether it raises.  Either way the
  enclosing `with` statement still runs `__exit__`, so the executed
  instruction trace is unchanged; the exception propagates only after the
  thread's remaining program, hence no truncation. -/
inductive Instr where
  | acqEntry
  | relEntry
  | acqLock
  | relLock
  | tryLock
  | waitDrain
  | raiseBusy
  | incCount
  | decCountNotifyOne
  | incCandNotifyAll
  | decCandNotifyAll
  | work (raises : Bool)
  deriving DecidableEq

/-- The wake-up performed by an instruction, if any: `decCountNotifyOne`
calls `notify()`, the candidate updates call `notify_all()`, everything
else wakes nobody. -/
def wake : Instr → Option WakeKind
  | Instr.decCountNotifyOne => some WakeKind.one
  | Instr.incCandNotifyAll => some WakeKind.all
  | Instr.decCandNotifyAll => some WakeKind.all
  | _ => none

/-- One atomic step of instruction `i` on gate state `g` with thread-local
`unblocked = l`.  Returns `none` when the instruction is blocked (a lock
acquire while the lock is held, or the drain wait while the loop guard
`count > candidates` holds), otherwise `some (g2, l2, raised)` with the
new gate state, new local, and whether the step raised the busy
exception. -/
def instrStep (i : Instr) (g : GateState) (l : Bool) :
    Option (GateState × Bool × Bool) :=
  match i with
  | Instr.acqEntry =>
      if g.entryHeld then none
      else some ({ g with entryHeld := true }, l, false)
  | Instr.relEntry => some ({ g with entryHeld := false }, l, false)
  | Instr.acqLock =>
      if g.lockHeld then none
      else some ({ g with lockHeld := true }, l, false)
  | Instr.relLock => some ({ g with lockHeld := false }, l, false)
  | Instr.tryLock =>
      if g.lockHeld then some (g, false, false)
      else some ({ g with lockHeld := true }, true, false)
  | Instr.waitDrain =>
      if l then
        if g.count ≤ g.candidates then some (g, l, false) else none
      else some (g, l, false)
  | Instr.raiseBusy =>
      if l then some (g, l, false) else some (g, l, true)
  | Instr.incCount => some ({ g with count := g.count + 1 }, l, false)
  | Instr.decCountNotifyOne => some ({ g with count := g.count - 1 }, l, false)
  | Instr.incCandNotifyAll =>
      some ({ g with candidates := g.candidates + 1 }, l, false)
  | Instr.decCandNotifyAll =>
      some ({ g with candidates := g.candidates - 1 }, l, false)
  | Instr.work _ => some (g, l, false)

/-- `ChatThreadcount.__enter__`: `with self._chat_lock.get_suspend_entry_lock():`
(acquire `_entry_lock`), then `self._chat_lock.wait_until_unblocked()`
(`with self._lock: pass`, i.e. acquire then immediately release `_lock`),
then `with self._condition: self._count += 1`, then the `with` releases
`_entry_lock`. -/
def chatThreadcountEnter : List Instr :=
  [Instr.acqEntry, Instr.acqLock, Instr.relLock, Instr.incCount, Instr.relEntry]

/-- `ChatThreadcount.__exit__`: `with self._condition: self._count -= 1;
self._condition.notify()`. -/
def chatThreadcountExit : List Instr :=
  [Instr.decCountNotifyOne]

/-- `ChatThreadcount.add_blocking_candidate`: `with self._condition:
self._blocking_candidates_count += 1; self._condition.notify_all()`. -/
def addBlockingCandidate : List Instr :=
  [Instr.incCandNotifyAll]

/-- `ChatThreadcount.remove_blocking_candidate`: `with self._condition:
self._blocking_candidates_count -= 1; self._condition.notify_all()`. -/
def removeBlockingCandidate : List Instr :=
  [Instr.decCandNotifyAll]

/-- `ChatLock.wait_until_unblocked`: `with self._lock: pass`. -/
def waitUntilUnblocked : List Instr :=
  [Instr.acqLock, Instr.relLock]

/-- `ChatLock.__enter__`: `self._threadcount.add_blocking_candidate()`;
`with self._entry_lock:` — inside it `unblocked = self._lock.acquire(False)`
and `if unblocked: self._threadcount.wait_until_only_blocking_candidates()` —
then, after the `with` block released `_entry_lock`,
`if not unblocked: raise Exception('Exclusive lock could not be acquired.')`. -/
def chatLockEnter : List Instr :=
  [Instr.incCandNotifyAll, Instr.acqEntry, Instr.tryLock, Instr.waitDrain,
   Instr.relEntry, Instr.raiseBusy]

/-- `ChatLock.__exit__`: `self._lock.release()` then
`self._threadcount.remove_blocking_candidate()`. -/
def chatLockExit : List Instr :=
  [Instr.relLock, Instr.decCandNotifyAll]

/-- `Plugin._thread_start`:
`with self.chat_lock.get_threadcount_context(): target(*args)` — the
threadcount's `__enter__`, the unit of work (which may raise), and the
threadcount's `__exit__`, which Python runs whether or not the work
raised. -/
def threadStart (b : Bool) : List Instr :=
  chatThreadcountEnter ++ [Instr.work b] ++ chatThreadcountExit

/-- A plugin thread doing `with self.chat_lock: <work>`: `ChatLock.__enter__`,
then the body and `ChatLock.__exit__`.  When `__enter__` raises (the
`raiseBusy` instruction fires with `unblocked = False`), the thread's
remaining program — body and `__exit__` — is abandoned, exactly as Python
skips the `with` body and `__exit__` when `__enter__` raises. -/
def withChatLock (b : Bool) : List Instr :=
  chatLockEnter ++ [Instr.work b] ++ chatLockExit

/-- Run a straight-line instruction list from gate state `g` and local
`l` with no interference from other threads: `none` when some instruction
blocks, otherwise `some (g2, raised)` where `raised` records whether the
run terminated by raising the busy exception (abandoning the rest). -/
def runInstrs (g : GateState) (l : Bool) : List Instr → Option (GateState × Bool)
  | [] => some (g, false)
  | i :: rest =>
      match instrStep i g l with
      | none => none
      | some (g2, l2, raised) =>
          if raised then some (g2, true) else runInstrs g2 l2 rest

/-- Per-thread state of the interleaving semantics: the remaining program,
the thread-local `unblocked` from `ChatLock.__enter__`, and two ghost
ownership flags recording whether this thread currently holds
`_entry_lock` resp. `_lock` (set by the acquire instructions, cleared by
the release instructions; pure bookkeeping with no effect on behaviour). -/
structure ThreadState where
  prog : List Instr
  unblocked : Bool
  holdsEntry : Bool
  holdsLock : Bool
  deriving DecidableEq

/-- Ghost update of the `holdsEntry` ownership flag. -/
def ghostEntry (i : Instr) (old : Bool) : Bool :=
  match i with
  | Instr.acqEntry => true
  | Instr.relEntry => false
  | _ => old

/-- Ghost update of the `holdsLock` ownership flag; `tryLock` holds the
lock exactly when the attempt succeeded (the new `unblocked`). -/
def ghostLock (i : Instr) (l2 : Bool) (old : Bool) : Bool :=
  match i with
  | Instr.acqLock => true
  | Instr.relLock => false
  | Instr.tryLock => l2
  | _ => old

/-- One step of a single thread: execute the head instruction if any and
if it is enabled.  A raising step abandons the rest of the program. -/
def stepThread (g : GateState) (t : ThreadState) :
    Option (GateState × ThreadState) :=
  match t.prog with
  | [] => none
  | i :: rest =>
      match instrStep i g t.unblocked with
      | none => none
      | some (g2, l2, raised) =>
          some (g2,
            { prog := if raised then [] else rest,
              unblocked := l2,
              holdsEntry := ghostEntry i t.holdsEntry,
              holdsLock := ghostLock i l2 t.holdsLock })

/-- A system: the shared gate state and the list of threads. -/
structure Sys where
  gate : GateState
  threads : List ThreadState
  deriving DecidableEq

/-- Schedule thread `i` for one step; `none` if `i` is out of range, done,
or blocked. -/
def stepSys (s : Sys) (i : Nat) : Option Sys :=
  match s.threads[i]? with
  | none => none
  | some t =>
      match stepThread s.gate t with
      | none => none
      | some (g2, t2) => some ⟨g2, s.threads.set i t2⟩

/-- Run a schedule (a list of thread indices), one step per entry; `none`
if any scheduled step cannot fire. -/
def runSys (s : Sys) : List Nat → Option Sys
  | [] => some s
  | i :: sched =>
      match stepSys s i with
      | none => none
      | some s2 => runSys s2 sched

/-- The state of a freshly constructed `ChatLock` (both counters zero,
both locks free). -/
def initGate : GateState :=
  { count := 0, candidates := 0, lockHeld := false, entryHeld := false }

/-- A thread that has not yet executed any instruction of program `p`. -/
def freshThread (p : List Instr) : ThreadState :=
  { prog := p, unblocked := false, holdsEntry := false, holdsLock := false }

/-- Two threads, each executing `with chat_lock:` around one unit of work,
on a fresh gate. -/
def twoExclSys : Sys :=
  ⟨initGate, [freshThread (withChatLock false), freshThread (withChatLock false)]⟩

/-- Four threads on a fresh gate: two exclusive attempts, one shared worker,
and one more exclusive attempt, used to show the consequences of the
candidate leak of a `Busy` failure. -/
def leakSys : Sys :=
  ⟨initGate, [freshThread (withChatLock false), freshThread (withChatLock false),
    freshThread (threadStart false), freshThread (withChatLock false)]⟩

/-- Position invariant of a worker thread running `threadStart b`: its
remaining program is the `k`-th suffix, it holds `_entry_lock` exactly at
positions 1–4 (after `acqEntry`, up to its `relEntry`) and holds `_lock`
exactly at position 2 (between `acqLock` and `relLock`). -/
def SharedOK (t : ThreadState) : Prop :=
  ∃ b k, k ≤ 7 ∧ t.prog = (threadStart b).drop k ∧
    t.holdsEntry = (decide (1 ≤ k) && decide (k ≤ 4)) ∧
    t.holdsLock = decide (k = 2)

/-- Position invariant of an exclusive thread running `withChatLock b`: its
remaining program is the `k`-th suffix (`k = 9` also covers a thread
terminated by the busy raise), it holds `_entry_lock` exactly at positions
2–4, holds `_lock` exactly when its `tryLock` succeeded and it has not yet
executed `relLock`, and past the busy check only a successful thread
continues. -/
def ExclOK (t : ThreadState) : Prop :=
  ∃ b k, k ≤ 9 ∧ t.prog = (withChatLock b).drop k ∧
    t.holdsEntry = (decide (2 ≤ k) && decide (k ≤ 4)) ∧
    t.holdsLock = (t.unblocked && decide (3 ≤ k) && decide (k ≤ 7)) ∧
    (6 ≤ k → k ≤ 8 → t.unblocked = true)

/-- Every thread of the systems considered is at a valid position of one of
the two source-level programs. -/
def ThreadOK (t : ThreadState) : Prop := SharedOK t ∨ ExclOK t

/-- System invariant: all threads are at valid program positions, nobody
holds `_entry_lock` while the gate records it free, and at most one thread
holds it at a time. -/
structure SysInv (s : Sys) : Prop where
  ok : ∀ (j : Nat) (tj : ThreadState), s.threads[j]? = some tj → ThreadOK tj
  entryFree : s.gate.entryHeld = false →
    ∀ (j : Nat) (tj : ThreadState), s.threads[j]? = some tj → tj.holdsEntry = false
  entryUnique : ∀ (i j : Nat) (ti tj : ThreadState), s.threads[i]? = some ti → s.threads[j]? = some tj →
    i ≠ j → ti.holdsEntry = true → tj.holdsEntry = false

/-- Updating one thread to a valid state preserves positional validity. -/
theorem ok_set {ts : List ThreadState} {i : Nat} {t t2 : ThreadState}
    (hok : ∀ (j : Nat) (tj : ThreadState), ts[j]? = some tj → ThreadOK tj)
    (ht : ts[i]? = some t) (h2 : ThreadOK t2) :
    ∀ (j : Nat) (tj : ThreadState), (ts.set i t2)[j]? = some tj → ThreadOK tj := by
  intro j tj hj
  by_cases hij : i = j
  · subst hij
    rw [List.getElem?_set_self', ht] at hj
    simp at hj
    rw [← hj]
    exact h2
  · rw [List.getElem?_set_ne hij] at hj
    exact hok j tj hj

/-- Invariant preservation for a step that neither touches `_entry_lock`
nor the stepping thread's ownership of it. -/
theorem inv_neutral {s : Sys} {i : Nat} {t t2 : ThreadState} {g2 : GateState}
    (hinv : SysInv s) (ht : s.threads[i]? = some t) (hok2 : ThreadOK t2)
    (hE : t2.holdsEntry = t.holdsEntry) (hg : g2.entryHeld = s.gate.entryHeld) :
    SysInv ⟨g2, s.threads.set i t2⟩ := by
  refine ⟨ok_set hinv.ok ht hok2, ?_, ?_⟩
  · intro hfree j tj hj
    rw [hg] at hfree
    by_cases hij : i = j
    · subst hij
      rw [List.getElem?_set_self', ht] at hj
      simp at hj
      rw [← hj, hE]
      exact hinv.entryFree hfree i t ht
    · rw [List.getElem?_set_ne hij] at hj
      exact hinv.entryFree hfree j tj hj
  · intro a j ta tj ha hj hne hEa
    by_cases hia : i = a
    · subst hia
      rw [List.getElem?_set_self', ht] at ha
      simp at ha
      rw [List.getElem?_set_ne (fun hij => hne (hij))] at hj
      rw [← ha, hE] at hEa
      exact hinv.entryUnique i j t tj ht hj hne hEa
    · rw [List.getElem?_set_ne hia] at ha
      by_cases hij : i = j
      · subst hij
        rw [List.getElem?_set_self', ht] at hj
        simp at hj
        rw [← hj, hE]
        exact hinv.entryUnique a i ta t ha ht (fun hh => hia hh.symm) hEa
      · rw [List.getElem?_set_ne hij] at hj
        exact hinv.entryUnique a j ta tj ha hj hne hEa

/-- Invariant preservation for a step acquiring `_entry_lock` (enabled only
while it is free, so no thread held it). -/
theorem inv_acq {s : Sys} {i : Nat} {t t2 : ThreadState} {g2 : GateState}
    (hinv : SysInv s) (ht : s.threads[i]? = some t) (hok2 : ThreadOK t2)
    (hfree : s.gate.entryHeld = false) (hg : g2.entryHeld = true) :
    SysInv ⟨g2, s.threads.set i t2⟩ := by
  refine ⟨ok_set hinv.ok ht hok2, ?_, ?_⟩
  · intro hfree2
    rw [hg] at hfree2
    simp at hfree2
  · intro a j ta tj ha hj hne hEa
    by_cases hij : i = j
    · subst hij
      rw [List.getElem?_set_ne (fun hh => hne hh.symm)] at ha
      exact absurd hEa (by simp [hinv.entryFree hfree a ta ha])
    · rw [List.getElem?_set_ne hij] at hj
      exact hinv.entryFree hfree j tj hj

/-- Invariant preservation for a step releasing `_entry_lock` (the stepping
thread was its unique holder). -/
theorem inv_rel {s : Sys} {i : Nat} {t t2 : ThreadState} {g2 : GateState}
    (hinv : SysInv s) (ht : s.threads[i]? = some t) (hok2 : ThreadOK t2)
    (hE1 : t.holdsEntry = true) (hE2 : t2.holdsEntry = false) :
    SysInv ⟨g2, s.threads.set i t2⟩ := by
  have hall : ∀ (j : Nat) (tj : ThreadState), (s.threads.set i t2)[j]? = some tj → tj.holdsEntry = false := by
    intro j tj hj
    by_cases hij : i = j
    · subst hij
      rw [List.getElem?_set_self', ht] at hj
      simp at hj
      rw [← hj]
      exact hE2
    · rw [List.getElem?_set_ne hij] at hj
      exact hinv.entryUnique i j t tj ht hj hij hE1
  refine ⟨ok_set hinv.ok ht hok2, fun _ => hall, ?_⟩
  intro a j ta tj ha hj hne hEa
  exact absurd hEa (by simp [hall a ta ha])

/-- A step of a thread at any position of the worker program preserves the
system invariant. -/
theorem shared_step {s : Sys} {i : Nat} {t t2 : ThreadState} {g2 : GateState}
    (hinv : SysInv s) (ht : s.threads[i]? = some t) (hOK : SharedOK t)
    (h : stepThread s.gate t = some (g2, t2)) :
    SysInv ⟨g2, s.threads.set i t2⟩ := by
  obtain ⟨b, k, hk, hprog, hE, hL⟩ := hOK
  interval_cases k
  · -- k = 0 : acqEntry
    simp [threadStart, chatThreadcountEnter, chatThreadcountExit] at hprog
    simp at hE hL
    by_cases hfree : s.gate.entryHeld = true
    · simp [stepThread, hprog, instrStep, hfree] at h
    · simp only [Bool.not_eq_true] at hfree
      simp [stepThread, hprog, instrStep, hfree, ghostEntry, ghostLock] at h
      obtain ⟨hg2, ht2⟩ := h
      subst hg2
      subst ht2
      exact inv_acq hinv ht
        (Or.inl ⟨b, 1, by omega,
          by simp [threadStart, chatThreadcountEnter, chatThreadcountExit],
          by simp, by simp [hL]⟩)
        hfree rfl
  · -- k = 1 : acqLock
    simp [threadStart, chatThreadcountEnter, chatThreadcountExit] at hprog
    simp at hE hL
    by_cases hLock : s.gate.lockHeld = true
    · simp [stepThread, hprog, instrStep, hLock] at h
    · simp only [Bool.not_eq_true] at hLock
      simp [stepThread, hprog, instrStep, hLock, ghostEntry, ghostLock] at h
      obtain ⟨hg2, ht2⟩ := h
      subst hg2
      subst ht2
      exact inv_neutral hinv ht
        (Or.inl ⟨b, 2, by omega,
          by simp [threadStart, chatThreadcountEnter, chatThreadcountExit],
          by simp [hE], by simp⟩)
        (by simp [hE]) rfl
  · -- k = 2 : relLock
    simp [threadStart, chatThreadcountEnter, chatThreadcountExit] at hprog
    simp at hE hL
    simp [stepThread, hprog, instrStep, ghostEntry, ghostLock] at h
    obtain ⟨hg2, ht2⟩ := h
    subst hg2
    subst ht2
    exact inv_neutral hinv ht
      (Or.inl ⟨b, 3, by omega,
        by simp [threadStart, chatThreadcountEnter, chatThreadcountExit],
        by simp [hE], by simp⟩)
      (by simp [hE]) rfl
  · -- k = 3 : incCount
    simp [threadStart, chatThreadcountEnter, chatThreadcountExit] at hprog
    simp at hE hL
    simp [stepThread, hprog, instrStep, ghostEntry, ghostLock] at h
    obtain ⟨hg2, ht2⟩ := h
    subst hg2
    subst ht2
    exact inv_neutral hinv ht
      (Or.inl ⟨b, 4, by omega,
        by simp [threadStart, chatThreadcountEnter, chatThreadcountExit],
        by simp [hE], by simp [hL]⟩)
      (by simp [hE]) rfl
  · -- k = 4 : relEntry
    simp [threadStart, chatThreadcountEnter, chatThreadcountExit] at hprog
    simp at hE hL
    simp [stepThread, hprog, instrStep, ghostEntry, ghostLock] at h
    obtain ⟨hg2, ht2⟩ := h
    subst hg2
    subst ht2
    exact inv_rel hinv ht
      (Or.inl ⟨b, 5, by omega,
        by simp [threadStart, chatThreadcountEnter, chatThreadcountExit],
        by simp, by simp [hL]⟩)
      hE rfl
  · -- k = 5 : work
    simp [threadStart, chatThreadcountEnter, chatThreadcountExit] at hprog
    simp at hE hL
    simp [stepThread, hprog, instrStep, ghostEntry, ghostLock] at h
    obtain ⟨hg2, ht2⟩ := h
    subst hg2
    subst ht2
    exact inv_neutral hinv ht
      (Or.inl ⟨b, 6, by omega,
        by simp [threadStart, chatThreadcountEnter, chatThreadcountExit],
        by simp [hE], by simp [hL]⟩)
      (by simp [hE]) rfl
  · -- k = 6 : decCountNotifyOne
    simp [threadStart, chatThreadcountEnter, chatThreadcountExit] at hprog
    simp at hE hL
    simp [stepThread, hprog, instrStep, ghostEntry, ghostLock] at h
    obtain ⟨hg2, ht2⟩ := h
    subst hg2
    subst ht2
    exact inv_neutral hinv ht
      (Or.inl ⟨b, 7, by omega,
        by simp [threadStart, chatThreadcountEnter, chatThreadcountExit],
        by simp [hE], by simp [hL]⟩)
      (by simp [hE]) rfl
  · -- k = 7 : done
    simp [threadStart, chatThreadcountEnter, chatThreadcountExit] at hprog
    simp [stepThread, hprog] at h

/-- A step of a thread at any position of the exclusive program preserves
the system invariant. -/
theorem excl_step {s : Sys} {i : Nat} {t t2 : ThreadState} {g2 : GateState}
    (hinv : SysInv s) (ht : s.threads[i]? = some t) (hOK : ExclOK t)
    (h : stepThread s.gate t = some (g2, t2)) :
    SysInv ⟨g2, s.threads.set i t2⟩ := by
  obtain ⟨b, k, hk, hprog, hE, hL, hcon⟩ := hOK
  interval_cases k
  · -- k = 0 : incCandNotifyAll
    simp [withChatLock, chatLockEnter, chatLockExit] at hprog
    simp at hE hL
    simp [stepThread, hprog, instrStep, ghostEntry, ghostLock] at h
    obtain ⟨hg2, ht2⟩ := h
    subst hg2
    subst ht2
    exact inv_neutral hinv ht
      (Or.inr ⟨b, 1, by omega,
        by simp [withChatLock, chatLockEnter, chatLockExit],
        by simp [hE], by simp [hL], by intro h6 h8; omega⟩)
      (by simp [hE]) rfl
  · -- k = 1 : acqEntry
    simp [withChatLock, chatLockEnter, chatLockExit] at hprog
    simp at hE hL
    by_cases hfree : s.gate.entryHeld = true
    · simp [stepThread, hprog, instrStep, hfree] at h
    · simp only [Bool.not_eq_true] at hfree
      simp [stepThread, hprog, instrStep, hfree, ghostEntry, ghostLock] at h
      obtain ⟨hg2, ht2⟩ := h
      subst hg2
      subst ht2
      exact inv_acq hinv ht
        (Or.inr ⟨b, 2, by omega,
          by simp [withChatLock, chatLockEnter, chatLockExit],
          by simp, by simp [hL], by intro h6 h8; omega⟩)
        hfree rfl
  · -- k = 2 : tryLock
    simp [withChatLock, chatLockEnter, chatLockExit] at hprog
    simp at hE hL
    by_cases hLock : s.gate.lockHeld = true
    · simp [stepThread, hprog, instrStep, hLock, ghostEntry, ghostLock] at h
      obtain ⟨hg2, ht2⟩ := h
      subst hg2
      subst ht2
      exact inv_neutral hinv ht
        (Or.inr ⟨b, 3, by omega,
          by simp [withChatLock, chatLockEnter, chatLockExit],
          by simp [hE], by simp, by intro h6 h8; omega⟩)
        (by simp [hE]) rfl
    · simp only [Bool.not_eq_true] at hLock
      simp [stepThread, hprog, instrStep, hLock, ghostEntry, ghostLock] at h
      obtain ⟨hg2, ht2⟩ := h
      subst hg2
      subst ht2
      exact inv_neutral hinv ht
        (Or.inr ⟨b, 3, by omega,
          by simp [withChatLock, chatLockEnter, chatLockExit],
          by simp [hE], by simp, by intro h6 h8; omega⟩)
        (by simp [hE]) rfl
  · -- k = 3 : waitDrain
    simp [withChatLock, chatLockEnter, chatLockExit] at hprog
    simp at hE hL
    by_cases hub : t.unblocked = true
    · by_cases hD : s.gate.count ≤ s.gate.candidates
      · simp [stepThread, hprog, instrStep, hub, hD, ghostEntry, ghostLock] at h
        obtain ⟨hg2, ht2⟩ := h
        subst hg2
        subst ht2
        exact inv_neutral hinv ht
          (Or.inr ⟨b, 4, by omega,
            by simp [withChatLock, chatLockEnter, chatLockExit],
            by simp [hE], by simp [hL, hub], by intro h6 h8; omega⟩)
          (by simp [hE]) rfl
      · simp [stepThread, hprog, instrStep, hub, hD] at h
    · simp only [Bool.not_eq_true] at hub
      simp [stepThread, hprog, instrStep, hub, ghostEntry, ghostLock] at h
      obtain ⟨hg2, ht2⟩ := h
      subst hg2
      subst ht2
      exact inv_neutral hinv ht
        (Or.inr ⟨b, 4, by omega,
          by simp [withChatLock, chatLockEnter, chatLockExit],
          by simp [hE], by simp [hL, hub], by intro h6 h8; omega⟩)
        (by simp [hE]) rfl
  · -- k = 4 : relEntry
    simp [withChatLock, chatLockEnter, chatLockExit] at hprog
    simp at hE hL
    simp [stepThread, hprog, instrStep, ghostEntry, ghostLock] at h
    obtain ⟨hg2, ht2⟩ := h
    subst hg2
    subst ht2
    exact inv_rel hinv ht
      (Or.inr ⟨b, 5, by omega,
        by simp [withChatLock, chatLockEnter, chatLockExit],
        by simp, by simp [hL], by intro h6 h8; omega⟩)
      hE rfl
  · -- k = 5 : raiseBusy
    simp [withChatLock, chatLockEnter, chatLockExit] at hprog
    simp at hE hL
    by_cases hub : t.unblocked = true
    · simp [stepThread, hprog, instrStep, hub, ghostEntry, ghostLock] at h
      obtain ⟨hg2, ht2⟩ := h
      subst hg2
      subst ht2
      exact inv_neutral hinv ht
        (Or.inr ⟨b, 6, by omega,
          by simp [withChatLock, chatLockEnter, chatLockExit],
          by simp [hE], by simp [hL, hub], by intro h6 h8; rfl⟩)
        (by simp [hE]) rfl
    · simp only [Bool.not_eq_true] at hub
      simp [stepThread, hprog, instrStep, hub, ghostEntry, ghostLock] at h
      obtain ⟨hg2, ht2⟩ := h
      subst hg2
      subst ht2
      exact inv_neutral hinv ht
        (Or.inr ⟨b, 9, by omega,
          by simp [withChatLock, chatLockEnter, chatLockExit],
          by simp [hE], by simp [hL, hub], by intro h6 h8; omega⟩)
        (by simp [hE]) rfl
  · -- k = 6 : work
    simp [withChatLock, chatLockEnter, chatLockExit] at hprog
    simp at hE hL
    have hub : t.unblocked = true := hcon (by omega) (by omega)
    simp [stepThread, hprog, instrStep, ghostEntry, ghostLock] at h
    obtain ⟨hg2, ht2⟩ := h
    subst hg2
    subst ht2
    exact inv_neutral hinv ht
      (Or.inr ⟨b, 7, by omega,
        by simp [withChatLock, chatLockEnter, chatLockExit],
        by simp [hE], by simp [hL], by intro h6 h8; exact hub⟩)
      (by simp [hE]) rfl
  · -- k = 7 : relLock
    simp [withChatLock, chatLockEnter, chatLockExit] at hprog
    simp at hE hL
    have hub : t.unblocked = true := hcon (by omega) (by omega)
    simp [stepThread, hprog, instrStep, ghostEntry, ghostLock] at h
    obtain ⟨hg2, ht2⟩ := h
    subst hg2
    subst ht2
    exact inv_neutral hinv ht
      (Or.inr ⟨b, 8, by omega,
        by simp [withChatLock, chatLockEnter, chatLockExit],
        by simp [hE], by simp, by intro h6 h8; exact hub⟩)
      (by simp [hE]) rfl
  · -- k = 8 : decCandNotifyAll
    simp [withChatLock, chatLockEnter, chatLockExit] at hprog
    simp at hE hL
    simp [stepThread, hprog, instrStep, ghostEntry, ghostLock] at h
    obtain ⟨hg2, ht2⟩ := h
    subst hg2
    subst ht2
    exact inv_neutral hinv ht
      (Or.inr ⟨b, 9, by omega,
        by simp [withChatLock, chatLockEnter, chatLockExit],
        by simp [hE], by simp [hL], by intro h6 h8; omega⟩)
      (by simp [hE]) rfl
  · -- k = 9 : done
    simp [withChatLock, chatLockEnter, chatLockExit] at hprog
    simp [stepThread, hprog] at h

/-- Any scheduled step preserves the system invariant. -/
theorem stepSys_inv {s s2 : Sys} {i : Nat} (hinv : SysInv s)
    (h : stepSys s i = some s2) : SysInv s2 := by
  cases ht : s.threads[i]? with
  | none => simp [stepSys, ht] at h
  | some t =>
    cases hstep : stepThread s.gate t with
    | none => simp [stepSys, ht, hstep] at h
    | some gt =>
      obtain ⟨g2, t2⟩ := gt
      simp [stepSys, ht, hstep] at h
      rw [← h]
      rcases hinv.ok i t ht with hS | hX
      · exact shared_step hinv ht hS hstep
      · exact excl_step hinv ht hX hstep

/-- Any schedule preserves the system invariant. -/
theorem runSys_inv {sched : List Nat} :
    ∀ {s s2 : Sys}, SysInv s → runSys s sched = some s2 → SysInv s2 := by
  induction sched with
  | nil =>
    intro s s2 hinv h
    simp [runSys] at h
    rw [← h]
    exact hinv
  | cons i rest ih =>
    intro s s2 hinv h
    cases hstep : stepSys s i with
    | none => simp [runSys, hstep] at h
    | some s3 =>
      simp [runSys, hstep] at h
      exact ih (stepSys_inv hinv hstep) h

/-- A system of fresh worker and exclusive threads satisfies the
invariant, whatever the counters hold. -/
theorem sysInv_init {g0 : GateState} {ts : List ThreadState}
    (hts : ∀ t ∈ ts, (∃ b, t.prog = threadStart b ∨ t.prog = withChatLock b) ∧
      t.holdsEntry = false ∧ t.holdsLock = false) :
    SysInv ⟨g0, ts⟩ := by
  refine ⟨?_, ?_, ?_⟩
  · intro j tj hj
    obtain ⟨⟨b, hb⟩, hE, hL⟩ := hts tj (List.getElem?_mem hj)
    rcases hb with hb | hb
    · exact Or.inl ⟨b, 0, by omega, by simpa using hb, by simpa using hE,
        by simpa using hL⟩
    · exact Or.inr ⟨b, 0, by omega, by simpa using hb, by simpa using hE,
        by simpa using hL, by intro h6 h8; omega⟩
  · intro _ j tj hj
    exact (hts tj (List.getElem?_mem hj)).2.1
  · intro a j ta tj ha hj hne hEa
    exact absurd hEa (by simp [(hts ta (List.getElem?_mem ha)).2.1])

/-- A trace consisting only of shared-counter operations never blocks,
never raises, and moves ActiveCount by the difference of enters and
exits. -/
theorem counterRun (tr : List Instr)
    (htr : ∀ i ∈ tr, i = Instr.incCount ∨ i = Instr.decCountNotifyOne) :
    ∀ g l, runInstrs g l tr =
      some ({ g with count := g.count + tr.count Instr.incCount -
                tr.count Instr.decCountNotifyOne }, false) := by
  induction tr with
  | nil => intro g l; simp [runInstrs]
  | cons i rest ih =>
    intro g l
    have hi := htr i (List.mem_cons_self i rest)
    have hrest : ∀ j ∈ rest, j = Instr.incCount ∨ j = Instr.decCountNotifyOne :=
      fun j hj => htr j (List.mem_cons_of_mem i hj)
    rcases hi with hi | hi <;> subst hi
    · rw [runInstrs]
      simp only [instrStep]
      rw [ih hrest]
      simp [List.count_cons]
      ring
    · rw [runInstrs]
      simp only [instrStep]
      rw [ih hrest]
      simp [List.count_cons]
      ring

/-- Claim C1 (code bug): the spec says `remove_candidate` is still invoked as
part of unwinding a `Busy`-failing exclusive attempt, so immediately after
the failure the gate state equals the state before the attempt.  The code
violates this: `ChatLock.__enter__` raises only after
`add_blocking_candidate()`, and Python skips `__exit__` — the sole caller of
`remove_blocking_candidate` — when `__enter__` raises.  Concretely: thread A
holds the lock after six steps of its `with chat_lock:` program
(CandidateCount = 1); thread B then runs its entire acquisition attempt,
which fails busy and terminates B's program; afterwards CandidateCount = 2,
one more than before B's attempt, with ActiveCount, the flag and the entry
lock unchanged — the candidate is leaked and can never be removed.  The
final conjunct shows the leak is harmful: continuing after A releases, a
shared worker C is admitted (ActiveCount = 1) and a later exclusive
acquisition D nevertheless completes, drain wait included — C and D both
stand at their `work` instruction, exclusive work overlapping shared work. -/
theorem c1_theorem :
    (runSys twoExclSys [0, 0, 0, 0, 0, 0]).map (fun s => s.gate.candidates) = some 1 ∧
    (runSys twoExclSys [0, 0, 0, 0, 0, 0, 1, 1, 1, 1, 1, 1]).map
      (fun s => s.gate.candidates) = some 2 ∧
    (runSys twoExclSys [0, 0, 0, 0, 0, 0, 1, 1, 1, 1, 1, 1]).map
      (fun s => s.threads.map ThreadState.prog) =
      some [[Instr.work false, Instr.relLock, Instr.decCandNotifyAll], []] ∧
    (runSys twoExclSys [0, 0, 0, 0, 0, 0]).map
      (fun s => (s.gate.count, s.gate.lockHeld, s.gate.entryHeld)) =
    (runSys twoExclSys [0, 0, 0, 0, 0, 0, 1, 1, 1, 1, 1, 1]).map
      (fun s => (s.gate.count, s.gate.lockHeld, s.gate.entryHeld)) ∧
    (runSys leakSys
        ([0, 0, 0, 0, 0, 0] ++ [1, 1, 1, 1, 1, 1] ++ [0, 0, 0] ++
          [2, 2, 2, 2, 2] ++ [3, 3, 3, 3, 3, 3])).map
      (fun s => (s.gate.count, s.threads.map (fun t => t.prog.head?))) =
      some (1, [none, none, some (Instr.work false), some (Instr.work false)]) := by
  decide

/-- Claim C2 (refuted as stated): the claim says the drain wait blocks until
ActiveCount == CandidateCount, so a successful exclusive acquisition never
returns control until they are equal at that instant.  On a fresh gate a
thread completes `ChatLock.__enter__` without raising (second component
`false`: the acquisition succeeded and returned control) in a state where
the equality ActiveCount = CandidateCount evaluates to `false`
(ActiveCount = 0, CandidateCount = 1). -/
theorem c2_counterexample :
    (runInstrs initGate false chatLockEnter).map
      (fun p => (p.2, decide (p.1.count = p.1.candidates))) = some (false, false) := by
  decide

/-- Claim C2 (amended): `wait_until_only_blocking_candidates` waits while
`self._count > self._blocking_candidates_count`, hence (1) the drain wait
can fire exactly in states with ActiveCount ≤ CandidateCount, (2) when it
fires it changes no state and never raises, and (3) every run of
`ChatLock.__enter__` that returns control without raising ends in a state
with ActiveCount ≤ CandidateCount.  The code guarantees ≤ at the instant
of return, not the claimed equality. -/
theorem c2_theorem :
    (∀ g : GateState, instrStep Instr.waitDrain g true ≠ none ↔ g.count ≤ g.candidates) ∧
    (∀ g g2 l2 r, instrStep Instr.waitDrain g true = some (g2, l2, r) → g2 = g ∧ r = false) ∧
    (∀ g l g2, runInstrs g l chatLockEnter = some (g2, false) →
      g2.count ≤ g2.candidates) := by
  refine ⟨?_, ?_, ?_⟩
  · intro g
    simp [instrStep]
  · intro g g2 l2 r h
    simp [instrStep] at h
    exact ⟨h.2.1.symm, h.2.2.2⟩
  · intro g l g2 h
    by_cases hE : g.entryHeld
    · simp [chatLockEnter, runInstrs, instrStep, hE] at h
    · by_cases hL : g.lockHeld
      · simp [chatLockEnter, runInstrs, instrStep, hE, hL] at h
      · by_cases hD : g.count ≤ g.candidates + 1
        · simp [chatLockEnter, runInstrs, instrStep, hE, hL, hD] at h
          rw [← h]
          simpa using hD
        · simp [chatLockEnter, runInstrs, instrStep, hE, hL, hD] at h

/-- Witness for C2 (amended), instantiating the drain-wait bound at the
state a fresh-gate acquisition actually reaches, and the enabledness at the
fresh gate itself. -/
theorem c2_witness :
    ((0 : Int) ≤ 1) ∧ instrStep Instr.waitDrain initGate true ≠ none :=
  ⟨c2_theorem.2.2 initGate false
      { count := 0, candidates := 1, lockHeld := true, entryHeld := false } (by decide),
   (c2_theorem.1 initGate).mpr (by decide)⟩

/-- Claim C3 (code bug): the claim says CandidateCount reads 0 whenever no
exclusive attempt is outstanding.  Reachable counterexample: thread A
acquires exclusively; thread B attempts, fails busy and its program
terminates; A finishes its work and releases.  In the final state both
threads are done — no attempt outstanding, both locks free, ActiveCount
0 — yet CandidateCount = 1 ≠ 0, because B's busy failure never ran
`remove_blocking_candidate` (see C1). -/
theorem c3_theorem :
    runSys twoExclSys [0, 0, 0, 0, 0, 0, 1, 1, 1, 1, 1, 1, 0, 0, 0] =
      some ⟨{ count := 0, candidates := 1, lockHeld := false, entryHeld := false },
            [{ prog := [], unblocked := true, holdsEntry := false, holdsLock := false },
             { prog := [], unblocked := false, holdsEntry := false, holdsLock := false }]⟩ ∧
    (1 : Int) ≠ 0 := by
  decide

/-- Claim C4: `ChatLock.__enter__` raises the busy error iff its single
non-blocking `self._lock.acquire(False)` found the flag held: (1) an
interference-free run of `chatLockEnter` from any state with the entry lock
free ends in a raise iff the flag was held, (2) the program contains no
blocking acquire of the flag, (3) it contains exactly one `tryLock` (no
retry, no queuing), and (4) `raiseBusy` is the only instruction of the
whole semantics that can raise — the busy error is the core's only error. -/
theorem c4_theorem :
    (∀ g l, g.entryHeld = false →
      ((runInstrs g l chatLockEnter).map (fun p => p.2) = some true ↔ g.lockHeld = true)) ∧
    Instr.acqLock ∉ chatLockEnter ∧
    chatLockEnter.count Instr.tryLock = 1 ∧
    (∀ i g l g2 l2, instrStep i g l = some (g2, l2, true) → i = Instr.raiseBusy) := by
  refine ⟨?_, by decide, by decide, ?_⟩
  · intro g l hE
    constructor
    · intro h
      by_contra hL
      simp at hL
      by_cases hD : g.count ≤ g.candidates + 1
      · simp [chatLockEnter, runInstrs, instrStep, hE, hL, hD] at h
      · simp [chatLockEnter, runInstrs, instrStep, hE, hL, hD] at h
    · intro hL
      simp [chatLockEnter, runInstrs, instrStep, hE, hL]
  · intro i g l g2 l2 h
    cases i
    case raiseBusy => rfl
    case acqEntry => simp only [instrStep] at h; split at h <;> simp at h
    case relEntry => simp [instrStep] at h
    case acqLock => simp only [instrStep] at h; split at h <;> simp at h
    case relLock => simp [instrStep] at h
    case tryLock => simp only [instrStep] at h; split at h <;> simp at h
    case waitDrain =>
      simp only [instrStep] at h
      split at h
      · split at h <;> simp at h
      · simp at h
    case incCount => simp [instrStep] at h
    case decCountNotifyOne => simp [instrStep] at h
    case incCandNotifyAll => simp [instrStep] at h
    case decCandNotifyAll => simp [instrStep] at h
    case work => simp [instrStep] at h

/-- Witness for C4 at a concrete state with the flag held: the attempt
raises busy. -/
theorem c4_witness :
    (runInstrs { count := 0, candidates := 0, lockHeld := true, entryHeld := false }
      false chatLockEnter).map (fun p => p.2) = some true :=
  (c4_theorem.1 { count := 0, candidates := 0, lockHeld := true, entryHeld := false }
    false rfl).mpr rfl

/-- Claim C5 (refuted as stated): the claim says `exit_shared` wakes waiters
with a broadcast wake, but `ChatThreadcount.__exit__` calls `notify()` — a
single wake — so not every wake performed by the embedded
`chatThreadcountExit` is a broadcast. -/
theorem c5_counterexample :
    ¬ (∀ w ∈ chatThreadcountExit.filterMap wake, w = WakeKind.all) := by
  decide

/-- Claim C5 (amended): `exit_shared` decrements ActiveCount and wakes a
single waiter (`notify()`, deliberately, per the code comment that at most
one blocking thread can wait), while `add_blocking_candidate` and
`remove_blocking_candidate` increment resp. decrement CandidateCount and
wake all waiters (`notify_all()`). -/
theorem c5_theorem :
    chatThreadcountExit = [Instr.decCountNotifyOne] ∧
    wake Instr.decCountNotifyOne = some WakeKind.one ∧
    addBlockingCandidate = [Instr.incCandNotifyAll] ∧
    wake Instr.incCandNotifyAll = some WakeKind.all ∧
    removeBlockingCandidate = [Instr.decCandNotifyAll] ∧
    wake Instr.decCandNotifyAll = some WakeKind.all ∧
    (∀ g l, instrStep Instr.decCountNotifyOne g l =
      some ({ g with count := g.count - 1 }, l, false)) ∧
    (∀ g l, instrStep Instr.incCandNotifyAll g l =
      some ({ g with candidates := g.candidates + 1 }, l, false)) ∧
    (∀ g l, instrStep Instr.decCandNotifyAll g l =
      some ({ g with candidates := g.candidates - 1 }, l, false)) := by
  refine ⟨rfl, rfl, rfl, rfl, rfl, rfl, ?_, ?_, ?_⟩ <;> (intro g l; rfl)

/-- Claim C6: `ChatThreadcount.__enter__` performs, in order and entirely
between acquiring and releasing `_entry_lock`: an acquire-then-release of
`_lock` (blocking until the flag is free, never retaining it) followed by
the ActiveCount increment.  Started with the flag free it completes with
both locks released, ActiveCount incremented and the flag as free as
before; started with the flag held it blocks; and it contains no raising
instruction, so the scoped `with` releases `_entry_lock` on every exit
path. -/
theorem c6_theorem :
    chatThreadcountEnter =
      [Instr.acqEntry] ++ [Instr.acqLock, Instr.relLock, Instr.incCount] ++
        [Instr.relEntry] ∧
    (∀ g l, g.entryHeld = false → g.lockHeld = false →
      runInstrs g l chatThreadcountEnter =
        some ({ count := g.count + 1, candidates := g.candidates,
                lockHeld := false, entryHeld := false }, false)) ∧
    (∀ g l, g.entryHeld = false → g.lockHeld = true →
      runInstrs g l chatThreadcountEnter = none) ∧
    Instr.raiseBusy ∉ chatThreadcountEnter := by
  refine ⟨rfl, ?_, ?_, by decide⟩
  · intro g l hE hL
    simp [chatThreadcountEnter, runInstrs, instrStep, hE, hL]
  · intro g l hE hL
    simp [chatThreadcountEnter, runInstrs, instrStep, hE, hL]

/-- Witness for C6 on a fresh gate: shared admission increments ActiveCount
and releases both locks. -/
theorem c6_witness :
    runInstrs initGate false chatThreadcountEnter =
      some ({ count := 1, candidates := 0, lockHeld := false, entryHeld := false },
        false) :=
  c6_theorem.2.1 initGate false rfl rfl

/-- Claim C7: the drain wait of a successful exclusive acquisition executes
while the acquirer still holds `_entry_lock`.  Structurally, `waitDrain`
lies strictly between `acqEntry` and `relEntry` in `chatLockEnter`; and in
every state reachable by any interleaving of worker threads (`threadStart`)
and exclusive threads (`withChatLock`) from fresh threads, a thread whose
next instruction is `incCount` (the step completing a shared admission) or
`waitDrain` (the drain wait) holds `_entry_lock` and every other thread
does not.  Hence no shared admission completes between an exclusive attempt
taking `_entry_lock` and releasing it. -/
theorem c7_theorem
    (g0 : GateState) (ts : List ThreadState) (sched : List Nat) (s : Sys)
    (j : Nat) (tj : ThreadState)
    (hts : ∀ t ∈ ts, (∃ b, t.prog = threadStart b ∨ t.prog = withChatLock b) ∧
      t.holdsEntry = false ∧ t.holdsLock = false)
    (hrun : runSys ⟨g0, ts⟩ sched = some s)
    (hj : s.threads[j]? = some tj)
    (hhead : tj.prog.head? = some Instr.incCount ∨
      tj.prog.head? = some Instr.waitDrain) :
    chatLockEnter =
      [Instr.incCandNotifyAll] ++ [Instr.acqEntry] ++
        [Instr.tryLock, Instr.waitDrain] ++ [Instr.relEntry] ++ [Instr.raiseBusy] ∧
    tj.holdsEntry = true ∧
    (∀ (i2 : Nat) (ti : ThreadState), s.threads[i2]? = some ti → i2 ≠ j →
      ti.holdsEntry = false) := by
  have hinv := runSys_inv (sysInv_init hts) hrun
  have hEj : tj.holdsEntry = true := by
    rcases hinv.ok j tj hj with hS | hX
    · obtain ⟨b, k, hk, hprog, hE, hL⟩ := hS
      interval_cases k <;>
        (simp [threadStart, chatThreadcountEnter, chatThreadcountExit] at hprog
         rw [hprog] at hhead
         simp at hhead
         try simpa using hE)
    · obtain ⟨b, k, hk, hprog, hE, hL, hcon⟩ := hX
      interval_cases k <;>
        (simp [withChatLock, chatLockEnter, chatLockExit] at hprog
         rw [hprog] at hhead
         simp at hhead
         try simpa using hE)
  refine ⟨rfl, hEj, ?_⟩
  intro i2 ti hti hne
  exact hinv.entryUnique j i2 tj ti hj hti (fun hh => hne hh.symm) hEj

/-- Witness for C7: a concrete run of one worker thread reaches the state
just before its `incCount`, and the theorem applies there. -/
theorem c7_witness :
    runSys ⟨initGate, [freshThread (threadStart false)]⟩ [0, 0, 0] =
      some ⟨{ count := 0, candidates := 0, lockHeld := false, entryHeld := true },
        [{ prog := [Instr.incCount, Instr.relEntry, Instr.work false,
             Instr.decCountNotifyOne],
           unblocked := false, holdsEntry := true, holdsLock := false }]⟩ ∧
    ({ prog := [Instr.incCount, Instr.relEntry, Instr.work false,
         Instr.decCountNotifyOne],
       unblocked := false, holdsEntry := true, holdsLock := false } : ThreadState).holdsEntry
      = true :=
  ⟨by decide,
   (c7_theorem initGate [freshThread (threadStart false)] [0, 0, 0]
      ⟨{ count := 0, candidates := 0, lockHeld := false, entryHeld := true },
        [{ prog := [Instr.incCount, Instr.relEntry, Instr.work false,
             Instr.decCountNotifyOne],
           unblocked := false, holdsEntry := true, holdsLock := false }]⟩
      0
      { prog := [Instr.incCount, Instr.relEntry, Instr.work false,
          Instr.decCountNotifyOne],
        unblocked := false, holdsEntry := true, holdsLock := false }
      (by decide) (by decide) (by decide) (Or.inl (by decide))).2.1⟩

/-- Claim C8: `Plugin._thread_start` wraps one unit of shared-mode work in
the threadcount context.  The executed trace is `__enter__`, the work, then
`__exit__`, for a completing (`b = false`) and for a raising (`b = true`)
work item alike — Python runs `__exit__` in both cases — so `exit_shared`
(the `decCountNotifyOne` instruction) executes exactly once, after the
work, and a full run returns the gate to its initial counters: a failing
task never leaves ActiveCount inflated. -/
theorem c8_theorem :
    (∀ b, threadStart b = chatThreadcountEnter ++ [Instr.work b] ++ chatThreadcountExit) ∧
    (∀ b, (threadStart b).count Instr.decCountNotifyOne = 1) ∧
    (∀ b g l, g.entryHeld = false → g.lockHeld = false →
      runInstrs g l (threadStart b) =
        some ({ count := g.count, candidates := g.candidates,
                lockHeld := false, entryHeld := false }, false)) := by
  refine ⟨fun b => rfl, fun b => by cases b <;> rfl, ?_⟩
  intro b g l hE hL
  simp [threadStart, chatThreadcountEnter, chatThreadcountExit, runInstrs, instrStep, hE, hL]

/-- Witness for C8 with a raising work item: the gate returns to its
initial state. -/
theorem c8_witness :
    runInstrs initGate false (threadStart true) = some (initGate, false) :=
  c8_theorem.2.2 true initGate false rfl rfl

/-- Claim C9: for any interleaved sequence of shared-counter operations
(`incCount` of `enter_shared`, `decCountNotifyOne` of `exit_shared`) in
which every prefix has at least as many enters as exits — each exit paired
with a prior enter — every prefix of the run from a fresh gate succeeds
with ActiveCount ≥ 0, and when enters and exits balance the run returns
the gate exactly to its initial state, ActiveCount 0. -/
theorem c9_theorem :
    ∀ tr : List Instr,
      (∀ i ∈ tr, i = Instr.incCount ∨ i = Instr.decCountNotifyOne) →
      (∀ n, n ≤ tr.length →
        (tr.take n).count Instr.decCountNotifyOne ≤ (tr.take n).count Instr.incCount) →
      (∀ n, n ≤ tr.length → ∃ g2, runInstrs initGate false (tr.take n) = some (g2, false) ∧
        0 ≤ g2.count) ∧
      (tr.count Instr.incCount = tr.count Instr.decCountNotifyOne →
        runInstrs initGate false tr = some (initGate, false)) := by
  intro tr htr hbal
  constructor
  · intro n hn
    have htake : ∀ i ∈ tr.take n, i = Instr.incCount ∨ i = Instr.decCountNotifyOne :=
      fun i hi => htr i (List.take_subset n tr hi)
    refine ⟨_, counterRun (tr.take n) htake initGate false, ?_⟩
    have := hbal n hn
    simp [initGate]
    omega
  · intro hcnt
    rw [counterRun tr htr initGate false]
    congr 2
    simp [initGate, hcnt]

/-- Witness for C9 on the balanced trace enter, enter, exit, exit. -/
theorem c9_witness :
    runInstrs initGate false
      [Instr.incCount, Instr.incCount, Instr.decCountNotifyOne, Instr.decCountNotifyOne] =
      some (initGate, false) :=
  (c9_theorem _ (by decide) (by decide)).2 (by decide)

/-- Claim C10: a successful `ChatLock.__enter__` followed by
`ChatLock.__exit__` is a round trip.  The `with chat_lock:` program performs
exactly one `add_blocking_candidate` and one `remove_blocking_candidate`,
and from every state in which the acquisition succeeds (locks free, the
drain condition satisfiable), the interference-free run restores the flag
to free and CandidateCount to its pre-acquisition value, leaving
ActiveCount untouched. -/
theorem c10_theorem :
    (∀ b, (withChatLock b).count Instr.incCandNotifyAll = 1 ∧
          (withChatLock b).count Instr.decCandNotifyAll = 1) ∧
    (∀ b g l, g.entryHeld = false → g.lockHeld = false → g.count ≤ g.candidates + 1 →
      runInstrs g l (withChatLock b) =
        some ({ count := g.count, candidates := g.candidates,
                lockHeld := false, entryHeld := false }, false)) := by
  refine ⟨fun b => by cases b <;> exact ⟨rfl, rfl⟩, ?_⟩
  intro b g l hE hL hD
  simp [withChatLock, chatLockEnter, chatLockExit, runInstrs, instrStep, hE, hL, hD]

/-- Witness for C10 on a fresh gate: acquire-then-release restores the
initial state. -/
theorem c10_witness :
    runInstrs initGate false (withChatLock false) = some (initGate, false) :=
  c10_theorem.2 false initGate false rfl rfl (by decide)
